import Mathlib

/-!
A shallow embedding of the virtual project host of `languageService.ts`
(function `createLanguageService`) and of the feature-query guard layer of
`javascript.ts` (function `getJavascriptMode` and the helper
`languageServiceIncludesFile`).

The mutable closure state of `createLanguageService` (`currentTextDocument`,
`versions`, `docs`, `files`, the mutable `allowJs` compiler option) becomes an
explicit `HostState`; each stateful operation becomes a function returning the
next state.  External collaborators that the source merely calls — uri/path
conversion (`vscode-uri`, node `path`), the file system (`ts.sys`), standard
module resolution (`ts.resolveModuleName`), the Document Cache `jsDocuments`
and the mixed-content extractor `parseVue` — are fields of an `Env` record,
so every theorem is quantified over their behaviour.  The file system is one
map `String → Option String`; a read failure and a missing file are both
`none`, matching the code's `ts.sys.readFile(p) || ''` treatment.
-/

set_option linter.unusedVariables false

namespace Vetur

/-- A protocol text document (the fields of
`vscode-languageserver-types.TextDocument` that the host reads): uri,
language id (the dialect tag, `"typescript"` or `"javascript"` for embedded
script), editor version, full text. -/
structure TextDocument where
  uri : String
  languageId : String
  version : Nat
  text : String
deriving DecidableEq

/-- `ts.Extension`, restricted to the two constructors the host produces for
resolved modules. -/
inductive Extension where
  | Ts
  | Js
deriving DecidableEq

/-- Suffix test on strings (lodash `_.endsWith`), written over the character
list so that witness statements evaluate in the kernel. -/
def strEndsWith (s suffix : String) : Bool :=
  List.isSuffixOf suffix.data s.data

/-- Modelled from the spec: the helper `isVue` of the companion `typescript`
module (not among this slice's source files) classifies a path as a
mixed-content document; the spec phrases it as "whose path ends in the
mixed-content extension". -/
def isVue (fileName : String) : Bool :=
  strEndsWith fileName ".vue"

/-- Modelled from the spec: the Synthetic Bridge Source's reserved module
name (`bridge.ts` is not among this slice's source files; the spec requires a
fixed name that cannot collide with real project files). -/
def bridgeModuleName : String := "vue-editor-bridge"

/-- Modelled from the spec: the Synthetic Bridge Source's fixed, disk-less
file path.  It is not a `.vue` path and never a real project path. -/
def bridgeFileName : String := "/vue-temp/vue-editor-bridge.ts"

/-- Modelled from the spec: the Synthetic Bridge Source's fixed text. -/
def bridgeContent : String := "import Vue from vue; export default Vue;"

/-- The external capabilities the host closes over.  `parseFsPath` is
`Uri.parse(uri).fsPath`, `normalizePath` is `Uri.file(fileName).fsPath`,
`fileUri` is `Uri.file(p).toString()`, `uriPath` is `Uri.parse(uri).path`;
`dirname`, `joinPath`, `isAbsolute` are the node `path` module; `fs` is
`ts.sys` (readFile; existence is `(fs p).isSome`); `tsResolve` is
`ts.resolveModuleName`, which reads the compiler options, of which only the
`allowJs` flag (the last argument) is ever mutated; `extractText` and
`extractLang` describe `jsDocuments.get` (Document Cache, external contract:
uri and version are preserved, text and dialect are recomputed from the
document); `parseVue` is the mixed-content extractor. -/
structure Env where
  parseFsPath : String → String
  normalizePath : String → String
  fileUri : String → String
  uriPath : String → String
  dirname : String → String
  joinPath : String → String → String
  isAbsolute : String → Bool
  fs : String → Option String
  tsResolve : String → String → Bool → Option (String × Extension)
  extractText : TextDocument → String
  extractLang : TextDocument → String
  parseVue : String → String
  isWindows : Bool

/-- `jsDocuments.get doc`: the Document Cache returns the embedded script
document for `doc` — same uri and version, text and dialect recomputed from
the whole document (external contract, spec section 6). -/
def jsGet (env : Env) (doc : TextDocument) : TextDocument :=
  { uri := doc.uri, languageId := env.extractLang doc,
    version := doc.version, text := env.extractText doc }

/-- `Map.get` on an association list (the ES `Map` objects `versions` and
`docs`). -/
def mapGet {α : Type} (m : List (String × α)) (k : String) : Option α :=
  match m.find? (fun e => e.1 == k) with
  | some e => some e.2
  | none => none

/-- `Map.set` on an association list. -/
def mapSet {α : Type} (m : List (String × α)) (k : String) (v : α) :
    List (String × α) :=
  (k, v) :: m.filter (fun e => e.1 != k)

theorem mapGet_set_self {α : Type} (m : List (String × α)) (k : String) (v : α) :
    mapGet (mapSet m k v) k = some v := by
  simp [mapGet, mapSet, List.find?]

theorem mapGet_set_ne {α : Type} (m : List (String × α)) (k k' : String) (v : α)
    (h : k' ≠ k) : mapGet (mapSet m k v) k' = mapGet m k' := by
  have hbeq : (k == k') = false := by
    simp [beq_iff_eq]
    exact fun he => h he.symm
  induction m with
  | nil => simp [mapGet, mapSet, List.find?, hbeq]
  | cons e t ih =>
      by_cases he : e.1 = k
      · have : (e.1 != k) = false := by simp [bne, he]
        simp only [mapGet, mapSet, List.filter, this] at ih ⊢
        have he' : (e.1 == k') = false := by
          simp [beq_iff_eq, he]
          exact fun hc => h hc.symm
        simp only [mapGet, mapSet, List.find?, hbeq, he'] at ih ⊢
        exact ih
      · have : (e.1 != k) = true := by simp [bne, he]
        simp only [mapGet, mapSet, List.filter, this] at ih ⊢
        by_cases he' : e.1 = k'
        · simp only [mapGet, List.find?, hbeq, he']
          simp
        · have he'' : (e.1 == k') = false := by simp [beq_iff_eq, he']
          simp only [mapGet, List.find?, hbeq, he''] at ih ⊢
          exact ih

theorem mapGet_set_isSome {α : Type} (m : List (String × α)) (k k' : String)
    (v : α) (h : (mapGet (mapSet m k v) k').isSome = true) :
    k' = k ∨ (mapGet m k').isSome = true := by
  by_cases hk : k' = k
  · exact Or.inl hk
  · right
    rw [mapGet_set_ne m k k' v hk] at h
    exact h

/-- The mutable closure state of `createLanguageService`:
`currentTextDocument` (the last updated embedded document, initially unset),
`versions` and `docs` (the per-path ES maps), the root file array `files`,
the single mutable compiler option `allowJs`, and `cleanCount`, a counter of
`jsLanguageService.cleanupSemanticCache()` calls that observes the
whole-service cache invalidation side effect (the call takes no per-file
argument in the source). -/
structure HostState where
  currentTextDocument : Option TextDocument
  versions : List (String × Nat)
  docs : List (String × TextDocument)
  files : List String
  allowJs : Bool
  cleanCount : Nat
deriving DecidableEq

/-- The state right after `createLanguageService` returns: `files` is
`parsedConfig.fileNames` from the static project configuration, nothing is
tracked yet, and `allowJs` is whatever the parsed options contain. -/
def initialState (initFiles : List String) (initAllowJs : Bool) : HostState :=
  { currentTextDocument := none, versions := [], docs := [],
    files := initFiles, allowJs := initAllowJs, cleanCount := 0 }

/-- The guard of `updateCurrentTextDocument`, line 55 of the source:
`!currentTextDocument || doc.uri !== currentTextDocument.uri ||
doc.version !== currentTextDocument.version`. -/
def shouldUpdate (s : HostState) (doc : TextDocument) : Bool :=
  match s.currentTextDocument with
  | none => true
  | some c => doc.uri != c.uri || doc.version != c.version

/-- `updateCurrentTextDocument(doc)`, lines 47-68 of the source.  The push to
`files` (lines 50-54) happens first, guarded by `!docs.has(fileFsPath)` and
`_.endsWith(fileFsPath, '.vue')`.  Then, when the guard of line 55 passes,
the embedded document is fetched from the Document Cache; if the path was
tracked before under a different `languageId`, `compilerOptions.allowJs` is
set from the previous document's id and `cleanupSemanticCache()` is called
(observed by `cleanCount`); finally `docs` and `versions` are written.  The
body can throw nothing, which the total return type reflects. -/
def updateCurrentTextDocument (env : Env) (s : HostState) (doc : TextDocument) :
    HostState :=
  let fileFsPath := env.parseFsPath doc.uri
  let files' :=
    if (mapGet s.docs fileFsPath).isNone && strEndsWith fileFsPath ".vue" then
      s.files ++ [fileFsPath]
    else s.files
  if shouldUpdate s doc then
    let cur := jsGet env doc
    let lastDoc := mapGet s.docs fileFsPath
    let dialectChanged :=
      match lastDoc with
      | some ld => cur.languageId != ld.languageId
      | none => false
    { currentTextDocument := some cur,
      docs := mapSet s.docs fileFsPath cur,
      versions := mapSet s.versions fileFsPath
        ((mapGet s.versions fileFsPath).getD 0 + 1),
      files := files',
      allowJs :=
        match lastDoc with
        | some ld =>
            if cur.languageId != ld.languageId then ld.languageId != "typescript"
            else s.allowJs
        | none => s.allowJs,
      cleanCount := if dialectChanged then s.cleanCount + 1 else s.cleanCount }
  else
    { s with files := files' }

/-- One entry of `resolveModuleNames` (lines 97-122): the body of the
`moduleNames.map` callback for a single specifier.  `none` is the
`undefined as any` / missing `resolvedModule` outcome ("unresolved"). -/
def resolveModuleName1 (env : Env) (s : HostState) (containingFile : String)
    (name : String) : Option (String × Extension) :=
  if name = bridgeModuleName then
    some (bridgeFileName, Extension.Ts)
  else if env.isAbsolute name || !isVue name then
    env.tsResolve name containingFile s.allowJs
  else
    let joined := env.joinPath (env.dirname containingFile) name
    let resolvedFileName := env.normalizePath joined
    if (env.fs resolvedFileName).isSome then
      let doc :=
        match mapGet s.docs resolvedFileName with
        | some d => d
        | none =>
            jsGet env
              { uri := env.fileUri joined, languageId := "vue", version := 0,
                text := (env.fs resolvedFileName).getD "" }
      some (resolvedFileName,
            if doc.languageId = "typescript" then Extension.Ts else Extension.Js)
    else
      none

/-- `resolveModuleNames(moduleNames, containingFile)`, lines 97-122: a map
over the specifiers, one output per input.  It mutates nothing, which the
absence of a returned state reflects. -/
def resolveModuleNames (env : Env) (s : HostState) (moduleNames : List String)
    (containingFile : String) : List (Option (String × Extension)) :=
  moduleNames.map (resolveModuleName1 env s containingFile)

/-- `getScriptSnapshot(fileName)`, lines 123-145, reduced to the text the
returned snapshot serves: the fixed bridge content for the bridge path; else
the tracked in-memory text if `docs` has the normalized path, else the disk
read with any failure collapsed to `''` (`ts.sys.readFile(p) || ''`); with
`parseVue` applied when the file name is a mixed-content path. -/
def getScriptSnapshot (env : Env) (s : HostState) (fileName : String) : String :=
  if fileName = bridgeFileName then
    bridgeContent
  else
    let normalizedFileFsPath := env.normalizePath fileName
    let text :=
      match mapGet s.docs normalizedFileFsPath with
      | some doc => doc.text
      | none => (env.fs normalizedFileFsPath).getD ""
    if isVue fileName then env.parseVue text else text

/-- `getFilePath(documentUri)` of `javascript.ts` (lines 325-332):
`Uri.parse(uri).path`, with the leading slash sliced off on Windows. -/
def getFilePath (env : Env) (documentUri : String) : String :=
  if env.isWindows then (env.uriPath documentUri).drop 1
  else env.uriPath documentUri

/-- `languageServiceIncludesFile(ls, documentUri)` of `javascript.ts`
(lines 334-338): the program's root file names are the host's live `files`
array (`getScriptFileNames`), and membership of `getFilePath documentUri` is
tested. -/
def languageServiceIncludesFile (env : Env) (s : HostState)
    (documentUri : String) : Bool :=
  s.files.contains (getFilePath env documentUri)

/-- A generic protocol completion list (`CompletionList`): the source builds
`{ isIncomplete: false, items: [] }` as the empty result. -/
structure CompletionList (ι : Type) where
  isIncomplete : Bool
  items : List ι
deriving DecidableEq

/-- A generic protocol hover (`Hover`): the empty result is
`{ contents: [] }`. -/
structure Hover (κ : Type) where
  contents : List κ
deriving DecidableEq

/-- A generic protocol signature help (`SignatureHelp`). -/
structure SignatureHelp (σ : Type) where
  activeSignature : Nat
  activeParameter : Nat
  signatures : List σ
deriving DecidableEq

/-- Modelled from the spec: `NULL_SIGNATURE` of `nullMode.ts` (not among this
slice's source files), the null signature-help result. -/
def NULL_SIGNATURE {σ : Type} : SignatureHelp σ :=
  { activeSignature := 0, activeParameter := 0, signatures := [] }

/-- The result of `doResolve`: either `NULL_COMPLETION` of `nullMode.ts` (not
among this slice's source files; modelled from the spec as a distinguished
null value) or a resolved item produced with the Script Compiler Service. -/
inductive ResolveResult (κ : Type) where
  | nullCompletion
  | item (it : κ)
deriving DecidableEq

/-- `doValidation(doc)` of `javascript.ts` (lines 45-62): update, then return
`[]` when the document is not among the program's root file names, else the
diagnostics computed with the Script Compiler Service — abstracted as the
oracle `lsDiag` applied to the updated state and the document's fs path. -/
def doValidation {δ : Type} (env : Env) (lsDiag : HostState → String → List δ)
    (s : HostState) (doc : TextDocument) : List δ × HostState :=
  let t := updateCurrentTextDocument env s doc
  if languageServiceIncludesFile env t doc.uri then
    (lsDiag t (env.parseFsPath doc.uri), t)
  else ([], t)

/-- `doComplete(doc, position)` (lines 63-94): update, then
`{ isIncomplete: false, items: [] }` when the document is not among the root
file names, else the completion list computed with the Script Compiler
Service (oracle `lsComp`). -/
def doComplete {ι : Type} (env : Env)
    (lsComp : HostState → String → CompletionList ι)
    (s : HostState) (doc : TextDocument) : CompletionList ι × HostState :=
  let t := updateCurrentTextDocument env s doc
  if languageServiceIncludesFile env t doc.uri then
    (lsComp t (env.parseFsPath doc.uri), t)
  else ({ isIncomplete := false, items := [] }, t)

/-- `doResolve(doc, item)` (lines 95-109): update, then `NULL_COMPLETION`
when the document is not among the root file names, else the possibly
enriched item (oracle `lsRes`). -/
def doResolve {κ : Type} (env : Env) (lsRes : HostState → String → κ → κ)
    (s : HostState) (doc : TextDocument) (item : κ) :
    ResolveResult κ × HostState :=
  let t := updateCurrentTextDocument env s doc
  if languageServiceIncludesFile env t doc.uri then
    (ResolveResult.item (lsRes t (env.parseFsPath doc.uri) item), t)
  else (ResolveResult.nullCompletion, t)

/-- `doHover(doc, position)` (lines 110-134): update, then
`{ contents: [] }` when the document is not among the root file names, else
the hover computed with the Script Compiler Service (oracle `lsHover`). -/
def doHover {κ : Type} (env : Env) (lsHover : HostState → String → Hover κ)
    (s : HostState) (doc : TextDocument) : Hover κ × HostState :=
  let t := updateCurrentTextDocument env s doc
  if languageServiceIncludesFile env t doc.uri then
    (lsHover t (env.parseFsPath doc.uri), t)
  else ({ contents := [] }, t)

/-- `doSignatureHelp(doc, position)` (lines 135-176): update, then
`NULL_SIGNATURE` when the document is not among the root file names, else the
signature help computed with the Script Compiler Service (oracle `lsSig`). -/
def doSignatureHelp {σ : Type} (env : Env)
    (lsSig : HostState → String → SignatureHelp σ)
    (s : HostState) (doc : TextDocument) : SignatureHelp σ × HostState :=
  let t := updateCurrentTextDocument env s doc
  if languageServiceIncludesFile env t doc.uri then
    (lsSig t (env.parseFsPath doc.uri), t)
  else (NULL_SIGNATURE, t)

/-- `findDocumentHighlight(doc, position)` (lines 177-194): update, then `[]`
when the document is not among the root file names, else the highlights
computed with the Script Compiler Service (oracle `lsHl`). -/
def findDocumentHighlight {η : Type} (env : Env)
    (lsHl : HostState → String → List η)
    (s : HostState) (doc : TextDocument) : List η × HostState :=
  let t := updateCurrentTextDocument env s doc
  if languageServiceIncludesFile env t doc.uri then
    (lsHl t (env.parseFsPath doc.uri), t)
  else ([], t)

/-- `findDocumentSymbols(doc)` (lines 195-235): update, then `[]` when the
document is not among the root file names, else the symbols computed with the
Script Compiler Service (oracle `lsSym`). -/
def findDocumentSymbols {θ : Type} (env : Env)
    (lsSym : HostState → String → List θ)
    (s : HostState) (doc : TextDocument) : List θ × HostState :=
  let t := updateCurrentTextDocument env s doc
  if languageServiceIncludesFile env t doc.uri then
    (lsSym t (env.parseFsPath doc.uri), t)
  else ([], t)

/-- `findDefinition(doc, position)` (lines 236-253): update, then `[]` when
the document is not among the root file names, else the definitions computed
with the Script Compiler Service (oracle `lsDef`). -/
def findDefinition {μ : Type} (env : Env)
    (lsDef : HostState → String → List μ)
    (s : HostState) (doc : TextDocument) : List μ × HostState :=
  let t := updateCurrentTextDocument env s doc
  if languageServiceIncludesFile env t doc.uri then
    (lsDef t (env.parseFsPath doc.uri), t)
  else ([], t)

/-- `findReferences(doc, position)` (lines 254-271): update, then `[]` when
the document is not among the root file names, else the references computed
with the Script Compiler Service (oracle `lsRef`). -/
def findReferences {ρ : Type} (env : Env)
    (lsRef : HostState → String → List ρ)
    (s : HostState) (doc : TextDocument) : List ρ × HostState :=
  let t := updateCurrentTextDocument env s doc
  if languageServiceIncludesFile env t doc.uri then
    (lsRef t (env.parseFsPath doc.uri), t)
  else ([], t)

/-- The states the host can be in during a session: every state transition
of the closure state goes through `updateCurrentTextDocument` (every feature
query of `javascript.ts` calls it first and mutates nothing else; the host
callbacks `resolveModuleNames` and `getScriptSnapshot` are read-only). -/
inductive Reachable (env : Env) (init : HostState) : HostState → Prop where
  | refl : Reachable env init init
  | step : ∀ {s : HostState} (doc : TextDocument), Reachable env init s →
      Reachable env init (updateCurrentTextDocument env s doc)

theorem mapGet_set_isSome_mono {α : Type} (m : List (String × α)) (k k' : String)
    (v : α) (h : (mapGet m k').isSome = true) :
    (mapGet (mapSet m k v) k').isSome = true := by
  by_cases hk : k' = k
  · subst hk; rw [mapGet_set_self]; rfl
  · rw [mapGet_set_ne m k k' v hk]; exact h

theorem update_files (env : Env) (s : HostState) (doc : TextDocument) :
    (updateCurrentTextDocument env s doc).files =
      (if (mapGet s.docs (env.parseFsPath doc.uri)).isNone &&
          strEndsWith (env.parseFsPath doc.uri) ".vue"
       then s.files ++ [env.parseFsPath doc.uri] else s.files) := by
  simp only [updateCurrentTextDocument]
  split <;> rfl

theorem update_docs_of_guard (env : Env) (s : HostState) (doc : TextDocument)
    (hg : shouldUpdate s doc = true) :
    (updateCurrentTextDocument env s doc).docs =
      mapSet s.docs (env.parseFsPath doc.uri) (jsGet env doc) := by
  simp only [updateCurrentTextDocument, hg, if_true]

theorem update_docs_of_not_guard (env : Env) (s : HostState) (doc : TextDocument)
    (hg : shouldUpdate s doc = false) :
    (updateCurrentTextDocument env s doc).docs = s.docs := by
  simp only [updateCurrentTextDocument, hg]
  rfl

theorem update_versions_of_guard (env : Env) (s : HostState) (doc : TextDocument)
    (hg : shouldUpdate s doc = true) :
    (updateCurrentTextDocument env s doc).versions =
      mapSet s.versions (env.parseFsPath doc.uri)
        ((mapGet s.versions (env.parseFsPath doc.uri)).getD 0 + 1) := by
  simp only [updateCurrentTextDocument, hg, if_true]

theorem update_versions_of_not_guard (env : Env) (s : HostState)
    (doc : TextDocument) (hg : shouldUpdate s doc = false) :
    (updateCurrentTextDocument env s doc).versions = s.versions := by
  simp only [updateCurrentTextDocument, hg]
  rfl

theorem update_current_of_guard (env : Env) (s : HostState) (doc : TextDocument)
    (hg : shouldUpdate s doc = true) :
    (updateCurrentTextDocument env s doc).currentTextDocument =
      some (jsGet env doc) := by
  simp only [updateCurrentTextDocument, hg, if_true]

theorem update_current_of_not_guard (env : Env) (s : HostState)
    (doc : TextDocument) (hg : shouldUpdate s doc = false) :
    (updateCurrentTextDocument env s doc).currentTextDocument =
      s.currentTextDocument := by
  simp only [updateCurrentTextDocument, hg]
  rfl

/-- A concrete environment for witnesses: uri/path conversion is the
identity, the containing directory is `""` and joining drops the leading `.`
of a relative specifier, the disk is empty, ordinary resolution always
fails, the Document Cache extracts text and dialect unchanged. -/
def envC : Env :=
  { parseFsPath := fun u => u,
    normalizePath := fun p => p,
    fileUri := fun p => p,
    uriPath := fun u => u,
    dirname := fun _ => "",
    joinPath := fun d n => d ++ String.mk (n.data.drop 1),
    isAbsolute := fun n => match n.data with | c :: _ => c == '/' | [] => false,
    fs := fun _ => none,
    tsResolve := fun _ _ _ => none,
    extractText := fun d => d.text,
    extractLang := fun d => d.languageId,
    parseVue := fun t => t,
    isWindows := false }

/-- `envC` with exactly one file on disk: `/b.vue` with content `"bt"`. -/
def envC3 : Env :=
  { envC with fs := fun p => if p = "/b.vue" then some "bt" else none }

/-- A concrete mixed-content editor document at `/a.vue`. -/
def docA : TextDocument :=
  { uri := "/a.vue", languageId := "javascript", version := 1, text := "ta" }

/-- `docA` re-submitted at a later editor version under the other dialect. -/
def docA2 : TextDocument :=
  { uri := "/a.vue", languageId := "typescript", version := 2, text := "ta2" }

/-- A concrete mixed-content editor document at `/b.vue`. -/
def docB : TextDocument :=
  { uri := "/b.vue", languageId := "typescript", version := 1, text := "tb" }

/-- A concrete plain script editor document at `/a.ts`. -/
def docT : TextDocument :=
  { uri := "/a.ts", languageId := "typescript", version := 1, text := "t" }

theorem shouldUpdate_false_elim (s : HostState) (doc : TextDocument)
    (h : shouldUpdate s doc = false) :
    ∃ c, s.currentTextDocument = some c ∧ doc.uri = c.uri ∧
      doc.version = c.version := by
  unfold shouldUpdate at h
  cases hc : s.currentTextDocument with
  | none => rw [hc] at h; simp at h
  | some c =>
      rw [hc] at h
      refine ⟨c, rfl, ?_, ?_⟩ <;>
        · simp only [Bool.or_eq_false_iff, bne_eq_false_iff_eq] at h
          first
          | exact h.1
          | exact h.2

theorem mem_files_of_mem_update_files (env : Env) (s : HostState)
    (doc : TextDocument) (p : String) (h : p ∈ s.files) :
    p ∈ (updateCurrentTextDocument env s doc).files := by
  rw [update_files]
  split
  · exact List.mem_append_left _ h
  · exact h

/-- One update step preserves "every tracked `.vue` path is a root file". -/
theorem docsVueInFiles_step (env : Env) (s : HostState) (doc : TextDocument)
    (ih : ∀ p, strEndsWith p ".vue" = true → (mapGet s.docs p).isSome = true →
      p ∈ s.files) :
    ∀ p, strEndsWith p ".vue" = true →
      (mapGet (updateCurrentTextDocument env s doc).docs p).isSome = true →
      p ∈ (updateCurrentTextDocument env s doc).files := by
  intro p hvue hdocs
  by_cases hg : shouldUpdate s doc = true
  · rw [update_docs_of_guard env s doc hg] at hdocs
    rcases mapGet_set_isSome s.docs (env.parseFsPath doc.uri) p (jsGet env doc)
        hdocs with hpe | hsome
    · subst hpe
      rw [update_files]
      by_cases hn : (mapGet s.docs (env.parseFsPath doc.uri)).isNone = true
      · simp [hn, hvue]
      · have hs : (mapGet s.docs (env.parseFsPath doc.uri)).isSome = true := by
          cases h : mapGet s.docs (env.parseFsPath doc.uri) with
          | none => rw [h] at hn; simp at hn
          | some _ => rfl
        have hmem := ih _ hvue hs
        split
        · exact List.mem_append_left _ hmem
        · exact hmem
    · exact mem_files_of_mem_update_files env s doc p (ih p hvue hsome)
  · have hg' : shouldUpdate s doc = false := by
      cases h : shouldUpdate s doc with
      | false => rfl
      | true => exact absurd h hg
    rw [update_docs_of_not_guard env s doc hg'] at hdocs
    exact mem_files_of_mem_update_files env s doc p (ih p hvue hdocs)

theorem reachable_docsVueInFiles (env : Env) (fs0 : List String) (aj : Bool)
    (s : HostState) (h : Reachable env (initialState fs0 aj) s) :
    ∀ p, strEndsWith p ".vue" = true → (mapGet s.docs p).isSome = true →
      p ∈ s.files := by
  induction h with
  | refl => intro p hv hd; simp [initialState, mapGet] at hd
  | step d hr ih => exact docsVueInFiles_step env _ d ih

/-- The inductive invariant behind the RootFileSet claims: the root file
array is the initial configuration followed by distinct discovered `.vue`
paths; every `.vue` root file is tracked; the current document is tracked
under its fs path. -/
def HostInv (env : Env) (fs0 : List String) (s : HostState) : Prop :=
  (∃ l, s.files = fs0 ++ l ∧ l.Nodup ∧
     ∀ p ∈ l, strEndsWith p ".vue" = true ∧ p ∉ fs0) ∧
  (∀ p ∈ s.files, strEndsWith p ".vue" = true →
     (mapGet s.docs p).isSome = true) ∧
  (∀ c, s.currentTextDocument = some c →
     (mapGet s.docs (env.parseFsPath c.uri)).isSome = true)

theorem hostInv_init (env : Env) (fs0 : List String) (aj : Bool)
    (h0 : ∀ p ∈ fs0, strEndsWith p ".vue" = false) :
    HostInv env fs0 (initialState fs0 aj) := by
  refine ⟨⟨[], by simp [initialState], List.nodup_nil, by simp⟩, ?_, ?_⟩
  · intro p hp hv
    rw [h0 p hp] at hv
    simp at hv
  · intro c hc
    simp [initialState] at hc

theorem hostInv_step (env : Env) (fs0 : List String) (s : HostState)
    (doc : TextDocument) (hinv : HostInv env fs0 s) :
    HostInv env fs0 (updateCurrentTextDocument env s doc) := by
  obtain ⟨⟨l, hfl, hnd, hl⟩, hbf, hcur⟩ := hinv
  by_cases hc : ((mapGet s.docs (env.parseFsPath doc.uri)).isNone &&
      strEndsWith (env.parseFsPath doc.uri) ".vue") = true
  · -- the push case: the path is untracked and mixed-content
    rw [Bool.and_eq_true] at hc
    obtain ⟨hnone, hvue⟩ := hc
    have hc : ((mapGet s.docs (env.parseFsPath doc.uri)).isNone &&
        strEndsWith (env.parseFsPath doc.uri) ".vue") = true := by
      rw [Bool.and_eq_true]
      exact ⟨hnone, hvue⟩
    have hg : shouldUpdate s doc = true := by
      cases h : shouldUpdate s doc with
      | true => rfl
      | false =>
          obtain ⟨c, hsc, hu, _⟩ := shouldUpdate_false_elim s doc h
          have := hcur c hsc
          rw [← hu] at this
          rw [Option.isNone_iff_eq_none.mp hnone] at this
          simp at this
    have hnotin : env.parseFsPath doc.uri ∉ s.files := by
      intro hmem
      have := hbf _ hmem hvue
      rw [Option.isNone_iff_eq_none.mp hnone] at this
      simp at this
    have hfiles : (updateCurrentTextDocument env s doc).files =
        s.files ++ [env.parseFsPath doc.uri] := by
      rw [update_files, if_pos hc]
    refine ⟨⟨l ++ [env.parseFsPath doc.uri], ?_, ?_, ?_⟩, ?_, ?_⟩
    · rw [hfiles, hfl, List.append_assoc]
    · refine List.Nodup.append hnd (List.nodup_singleton _) ?_
      intro a ha hb
      rw [List.mem_singleton] at hb
      subst hb
      exact hnotin (hfl ▸ List.mem_append_right _ ha)
    · intro p hp
      rcases List.mem_append.mp hp with hp | hp
      · exact hl p hp
      · rw [List.mem_singleton] at hp
        subst hp
        refine ⟨hvue, fun hin => hnotin (hfl ▸ List.mem_append_left _ hin)⟩
    · intro p hp hv
      rw [hfiles] at hp
      rw [update_docs_of_guard env s doc hg]
      rcases List.mem_append.mp hp with hp | hp
      · exact mapGet_set_isSome_mono _ _ _ _ (hbf p hp hv)
      · rw [List.mem_singleton] at hp
        subst hp
        rw [mapGet_set_self]
        rfl
    · intro c hccur
      rw [update_current_of_guard env s doc hg] at hccur
      rw [update_docs_of_guard env s doc hg]
      have : c = jsGet env doc := by
        injection hccur with h
        exact h.symm
      subst this
      show (mapGet _ (env.parseFsPath (jsGet env doc).uri)).isSome = true
      have hu : (jsGet env doc).uri = doc.uri := rfl
      rw [hu, mapGet_set_self]
      rfl
  · -- no push: the root file array is unchanged
    have hfiles : (updateCurrentTextDocument env s doc).files = s.files := by
      rw [update_files, if_neg]
      intro h
      exact hc h
    by_cases hg : shouldUpdate s doc = true
    · refine ⟨⟨l, by rw [hfiles, hfl], hnd, hl⟩, ?_, ?_⟩
      · intro p hp hv
        rw [hfiles] at hp
        rw [update_docs_of_guard env s doc hg]
        exact mapGet_set_isSome_mono _ _ _ _ (hbf p hp hv)
      · intro c hccur
        rw [update_current_of_guard env s doc hg] at hccur
        rw [update_docs_of_guard env s doc hg]
        have : c = jsGet env doc := by
          injection hccur with h
          exact h.symm
        subst this
        show (mapGet _ (env.parseFsPath (jsGet env doc).uri)).isSome = true
        have hu : (jsGet env doc).uri = doc.uri := rfl
        rw [hu, mapGet_set_self]
        rfl
    · have hg' : shouldUpdate s doc = false := by
        cases h : shouldUpdate s doc with
        | false => rfl
        | true => exact absurd h hg
      refine ⟨⟨l, by rw [hfiles, hfl], hnd, hl⟩, ?_, ?_⟩
      · intro p hp hv
        rw [hfiles] at hp
        rw [update_docs_of_not_guard env s doc hg']
        exact hbf p hp hv
      · intro c hccur
        rw [update_current_of_not_guard env s doc hg'] at hccur
        rw [update_docs_of_not_guard env s doc hg']
        exact hcur c hccur

theorem reachable_hostInv (env : Env) (fs0 : List String) (aj : Bool)
    (s : HostState) (h0 : ∀ p ∈ fs0, strEndsWith p ".vue" = false)
    (h : Reachable env (initialState fs0 aj) s) : HostInv env fs0 s := by
  induction h with
  | refl => exact hostInv_init env fs0 aj h0
  | step d hr ih => exact hostInv_step env fs0 _ d ih

/-- C1 counterexample: re-submitting the identical editor document (same
uri, same editor version, hence identical text) to
`updateCurrentTextDocument` does not increase the stored version: after two
update calls with `docA` the version of `/a.vue` is still `1`, not `2`,
refuting "re-submitting identical text still increases the version exactly
once per update call". -/
theorem version_not_bumped_on_identical_resubmit :
    mapGet (updateCurrentTextDocument envC (initialState [] true)
      docA).versions "/a.vue" = some 1 ∧
    mapGet (updateCurrentTextDocument envC (updateCurrentTextDocument envC
      (initialState [] true) docA) docA).versions "/a.vue" = some 1 ∧
    ¬ mapGet (updateCurrentTextDocument envC (updateCurrentTextDocument envC
      (initialState [] true) docA) docA).versions "/a.vue" = some 2 := by
  decide

/-- C1 amended: the stored version for the document's fs path increases by
exactly one (hence strictly) on every update call whose document differs
from the current document in uri or editor version (or when no current
document exists) — the guard `shouldUpdate`; an update call failing that
guard (re-submission of the identical document) leaves all versions
unchanged. -/
theorem version_increases_iff_guard (env : Env) (s : HostState)
    (doc : TextDocument) :
    (shouldUpdate s doc = true →
      mapGet (updateCurrentTextDocument env s doc).versions
          (env.parseFsPath doc.uri) =
        some ((mapGet s.versions (env.parseFsPath doc.uri)).getD 0 + 1) ∧
      (mapGet s.versions (env.parseFsPath doc.uri)).getD 0 <
        (mapGet (updateCurrentTextDocument env s doc).versions
          (env.parseFsPath doc.uri)).getD 0) ∧
    (shouldUpdate s doc = false →
      (updateCurrentTextDocument env s doc).versions = s.versions) := by
  constructor
  · intro hg
    rw [update_versions_of_guard env s doc hg, mapGet_set_self]
    exact ⟨rfl, Nat.lt_succ_self _⟩
  · exact update_versions_of_not_guard env s doc

/-- Witness for `version_increases_iff_guard` at the first update of
`docA` from the empty initial state. -/
theorem version_increases_iff_guard_witness :
    shouldUpdate (initialState [] true) docA = true ∧
    mapGet (updateCurrentTextDocument envC (initialState [] true)
        docA).versions (envC.parseFsPath docA.uri) =
      some ((mapGet (initialState [] true).versions
        (envC.parseFsPath docA.uri)).getD 0 + 1) :=
  ⟨by decide,
   ((version_increases_iff_guard envC (initialState [] true) docA).1
     (by decide)).1⟩

/-- C2: when an update passes the version guard and the path was previously
tracked under a different dialect (`languageId`), the host calls
`jsLanguageService.cleanupSemanticCache()` — a whole-service invalidation,
the call carries no per-file argument, observed by `cleanCount` increasing —
and sets the `allowJs` ("permit untyped script") compiler option from the
previous document's dialect.  The dialect mismatch is never surfaced as an
error: `updateCurrentTextDocument` is a total function into `HostState`,
mirroring the throw-free source body. -/
theorem dialect_change_forces_whole_service_invalidation (env : Env)
    (s : HostState) (doc : TextDocument) (ld : TextDocument)
    (hg : shouldUpdate s doc = true)
    (hlast : mapGet s.docs (env.parseFsPath doc.uri) = some ld)
    (hdiff : (jsGet env doc).languageId ≠ ld.languageId) :
    (updateCurrentTextDocument env s doc).cleanCount = s.cleanCount + 1 ∧
    (updateCurrentTextDocument env s doc).allowJs =
      (ld.languageId != "typescript") := by
  have hbne : ((jsGet env doc).languageId != ld.languageId) = true := by
    simp [bne_iff_ne]
    exact hdiff
  simp only [updateCurrentTextDocument, hg, if_true, hlast, hbne]
  refine ⟨?_, ?_⟩ <;> trivial

/-- Witness for `dialect_change_forces_whole_service_invalidation`:
re-submitting `/a.vue` as typescript after tracking it as javascript bumps
the invalidation counter. -/
theorem dialect_change_forces_whole_service_invalidation_witness :
    shouldUpdate (updateCurrentTextDocument envC (initialState [] true) docA)
      docA2 = true ∧
    (updateCurrentTextDocument envC (updateCurrentTextDocument envC
        (initialState [] true) docA) docA2).cleanCount =
      (updateCurrentTextDocument envC (initialState [] true) docA).cleanCount
        + 1 :=
  ⟨by decide,
   (dialect_change_forces_whole_service_invalidation envC
     (updateCurrentTextDocument envC (initialState [] true) docA) docA2 docA
     (by decide) (by decide) (by decide)).1⟩

/-- C3 counterexample: with `/a.vue` updated and `/b.vue` present on disk
only, resolving the relative import `./b.vue` from `/a.vue` succeeds — yet
`/b.vue` neither enters the root file array nor the tracked-document map
(`resolveModuleNames` mutates nothing), refuting "a query against `a` causes
`b` to become tracked and appear in the root file list". -/
theorem resolution_does_not_track_import_target :
    resolveModuleNames envC3 (updateCurrentTextDocument envC3
        (initialState [] true) docA) ["./b.vue"] "/a.vue" =
      [some ("/b.vue", Extension.Js)] ∧
    "/b.vue" ∉ (updateCurrentTextDocument envC3
        (initialState [] true) docA).files ∧
    mapGet (updateCurrentTextDocument envC3
        (initialState [] true) docA).docs "/b.vue" = none := by
  decide

/-- C3 amended: resolution returns the resolved path and dialect of a
relative mixed-content import without tracking it; only the editor-facing
update tracks files, and the invariant that survives is: in every reachable
host state, every tracked path ending in the mixed-content extension is in
the root file array (it is appended on the path's first update). -/
theorem tracked_vue_docs_in_root_files (env : Env) (fs0 : List String)
    (aj : Bool) (s : HostState)
    (hr : Reachable env (initialState fs0 aj) s) :
    ∀ p, strEndsWith p ".vue" = true → (mapGet s.docs p).isSome = true →
      p ∈ s.files :=
  reachable_docsVueInFiles env fs0 aj s hr

/-- Witness for `tracked_vue_docs_in_root_files`: after updating `docA`,
the tracked path `/a.vue` is a root file. -/
theorem tracked_vue_docs_in_root_files_witness :
    "/a.vue" ∈ (updateCurrentTextDocument envC3
      (initialState [] true) docA).files :=
  tracked_vue_docs_in_root_files envC3 [] true _
    (Reachable.step docA Reachable.refl) "/a.vue" (by decide) (by decide)

/-- C4 counterexample: `/b.vue` is open in memory (tracked after updating
`docB`) but absent from disk (`envC.fs` is empty); resolving `./b.vue` from
`/a.vue` yields unresolved, refuting "a file that is open in memory but
absent from disk still resolves" — the code checks only
`ts.sys.fileExists`. -/
theorem in_memory_only_vue_does_not_resolve :
    (mapGet (updateCurrentTextDocument envC (initialState [] true)
      docB).docs "/b.vue").isSome = true ∧
    resolveModuleNames envC (updateCurrentTextDocument envC
      (initialState [] true) docB) ["./b.vue"] "/a.vue" = [none] := by
  decide

/-- C4 amended: for a relative mixed-content specifier (neither the bridge
name, nor absolute, nor a non-`.vue` target) the candidate path is computed
from the containing file's directory, and resolution is unresolved exactly
when no file exists at that path **on disk**; the Version Store is not
consulted for existence. -/
theorem relative_vue_unresolved_iff_not_on_disk (env : Env) (s : HostState)
    (cf name : String)
    (h1 : name ≠ bridgeModuleName) (h2 : env.isAbsolute name = false)
    (h3 : isVue name = true) :
    (resolveModuleName1 env s cf name = none ↔
      env.fs (env.normalizePath (env.joinPath (env.dirname cf) name)) =
        none) := by
  simp only [resolveModuleName1, h1, h2, h3, if_false, Bool.false_or,
    Bool.not_true, if_neg]
  cases hfs : env.fs (env.normalizePath (env.joinPath (env.dirname cf) name))
    with
  | none => simp [hfs]
  | some t => simp [hfs]

/-- Witness for `relative_vue_unresolved_iff_not_on_disk`: with `/b.vue` on
disk the specifier `./b.vue` from `/a.vue` is not unresolved. -/
theorem relative_vue_unresolved_iff_not_on_disk_witness :
    (resolveModuleName1 envC3 (initialState [] true) "/a.vue" "./b.vue" =
        none ↔
      envC3.fs (envC3.normalizePath (envC3.joinPath
        (envC3.dirname "/a.vue") "./b.vue")) = none) :=
  relative_vue_unresolved_iff_not_on_disk envC3 (initialState [] true)
    "/a.vue" "./b.vue" (by decide) (by decide) (by decide)

/-- C5: for a resolvable relative mixed-content import (the candidate path
exists on disk with content `t`): if the candidate is tracked, the returned
dialect comes from the in-memory tracked document (the editor's view wins);
if it is untracked, resolution succeeds with the dialect the Document Cache
derives from the freshly created document holding the on-disk content. -/
theorem resolvable_vue_dialect_source (env : Env) (s : HostState)
    (cf name t : String)
    (h1 : name ≠ bridgeModuleName) (h2 : env.isAbsolute name = false)
    (h3 : isVue name = true)
    (hfs : env.fs (env.normalizePath (env.joinPath (env.dirname cf) name)) =
      some t) :
    (∀ d, mapGet s.docs (env.normalizePath (env.joinPath (env.dirname cf)
        name)) = some d →
      resolveModuleName1 env s cf name =
        some (env.normalizePath (env.joinPath (env.dirname cf) name),
          if d.languageId = "typescript" then Extension.Ts
          else Extension.Js)) ∧
    (mapGet s.docs (env.normalizePath (env.joinPath (env.dirname cf) name)) =
        none →
      resolveModuleName1 env s cf name =
        some (env.normalizePath (env.joinPath (env.dirname cf) name),
          if (jsGet env { uri := env.fileUri (env.joinPath (env.dirname cf) name), languageId := "vue", version := 0, text := t }).languageId = "typescript"
          then Extension.Ts else Extension.Js)) := by
  constructor
  · intro d hd
    simp [resolveModuleName1, h1, h2, h3, hfs, hd]
  · intro hd
    simp [resolveModuleName1, h1, h2, h3, hfs, hd]

/-- Witness for `resolvable_vue_dialect_source`: the never-opened `/b.vue`
(on disk with content `"bt"`) resolves with the dialect read from disk. -/
theorem resolvable_vue_dialect_source_witness :
    resolveModuleName1 envC3 (initialState [] true) "/a.vue" "./b.vue" =
      some (envC3.normalizePath (envC3.joinPath (envC3.dirname "/a.vue")
          "./b.vue"),
        if (jsGet envC3 { uri := envC3.fileUri (envC3.joinPath (envC3.dirname "/a.vue") "./b.vue"), languageId := "vue", version := 0, text := "bt" }).languageId = "typescript"
        then Extension.Ts else Extension.Js) :=
  (resolvable_vue_dialect_source envC3 (initialState [] true) "/a.vue"
    "./b.vue" "bt" (by decide) (by decide) (by decide) (by decide)).2
    (by decide)

/-- C6: resolving the reserved synthetic-bridge module name always succeeds
with the same fixed file path and the typed (`Ts`) dialect, for every
containing file and every host state. -/
theorem bridge_module_resolution_fixed (env : Env) (s : HostState)
    (cf : String) :
    resolveModuleNames env s [bridgeModuleName] cf =
      [some (bridgeFileName, Extension.Ts)] := by
  simp [resolveModuleNames, resolveModuleName1]

/-- C7: in every reachable host state (with the statically configured roots
containing no mixed-content path, as the spec's RootFileSet invariant
states), the root file array is the initial configuration followed by
distinct discovered `.vue` paths — never reordered or pruned — and a further
update either leaves it unchanged or appends one `.vue` path not already
present. -/
theorem root_files_append_only (env : Env) (fs0 : List String) (aj : Bool)
    (s : HostState)
    (h0 : ∀ p ∈ fs0, strEndsWith p ".vue" = false)
    (hr : Reachable env (initialState fs0 aj) s) :
    (∃ l, s.files = fs0 ++ l ∧ l.Nodup ∧
      ∀ p ∈ l, strEndsWith p ".vue" = true ∧ p ∉ fs0) ∧
    (∀ doc : TextDocument,
      (updateCurrentTextDocument env s doc).files = s.files ∨
      ∃ p, strEndsWith p ".vue" = true ∧ p ∉ s.files ∧
        (updateCurrentTextDocument env s doc).files = s.files ++ [p]) := by
  have hinv := reachable_hostInv env fs0 aj s h0 hr
  refine ⟨hinv.1, ?_⟩
  intro doc
  by_cases hc : ((mapGet s.docs (env.parseFsPath doc.uri)).isNone &&
      strEndsWith (env.parseFsPath doc.uri) ".vue") = true
  · right
    rw [Bool.and_eq_true] at hc
    obtain ⟨hnone, hvue⟩ := hc
    refine ⟨env.parseFsPath doc.uri, hvue, ?_, ?_⟩
    · intro hmem
      have := hinv.2.1 _ hmem hvue
      rw [Option.isNone_iff_eq_none.mp hnone] at this
      simp at this
    · rw [update_files, if_pos]
      rw [Bool.and_eq_true]
      exact ⟨hnone, hvue⟩
  · left
    rw [update_files, if_neg]
    intro h
    exact hc h

/-- Witness for `root_files_append_only` after the first update of `docA`
from an empty configuration. -/
theorem root_files_append_only_witness :
    ∃ l, (updateCurrentTextDocument envC (initialState [] true) docA).files =
        [] ++ l ∧ l.Nodup ∧
      ∀ p ∈ l, strEndsWith p ".vue" = true ∧ p ∉ ([] : List String) :=
  (root_files_append_only envC [] true _ (by simp)
    (Reachable.step docA Reachable.refl)).1

/-- C8: snapshot retrieval serves the fixed bridge text for the reserved
bridge path; otherwise the in-memory tracked text when the normalized path
is tracked, else the disk read, where a missing file or read failure yields
empty content rather than an error to the caller (the function is total);
and for mixed-content file names the extractor `parseVue` is applied to the
served text. -/
theorem script_snapshot_cases (env : Env) (s : HostState) (fileName : String) :
    (getScriptSnapshot env s bridgeFileName = bridgeContent) ∧
    (∀ d, fileName ≠ bridgeFileName →
      mapGet s.docs (env.normalizePath fileName) = some d →
      getScriptSnapshot env s fileName =
        (if isVue fileName then env.parseVue d.text else d.text)) ∧
    (∀ t, fileName ≠ bridgeFileName →
      mapGet s.docs (env.normalizePath fileName) = none →
      env.fs (env.normalizePath fileName) = some t →
      getScriptSnapshot env s fileName =
        (if isVue fileName then env.parseVue t else t)) ∧
    (fileName ≠ bridgeFileName →
      mapGet s.docs (env.normalizePath fileName) = none →
      env.fs (env.normalizePath fileName) = none →
      getScriptSnapshot env s fileName =
        (if isVue fileName then env.parseVue "" else "")) := by
  refine ⟨?_, ?_, ?_, ?_⟩
  · simp [getScriptSnapshot]
  · intro d hne hd
    simp [getScriptSnapshot, hne, hd]
  · intro t hne hd hfs
    simp [getScriptSnapshot, hne, hd, hfs]
  · intro hne hd hfs
    simp [getScriptSnapshot, hne, hd, hfs]

/-- Witness for `script_snapshot_cases`: an untracked path absent from disk
is served as the extraction of empty content, not an error. -/
theorem script_snapshot_cases_witness :
    getScriptSnapshot envC (initialState [] true) "/c.vue" =
      (if isVue "/c.vue" then envC.parseVue "" else "") :=
  (script_snapshot_cases envC (initialState [] true) "/c.vue").2.2.2
    (by decide) (by decide) (by decide)

/-- A host state differing from the empty initial state in versions, root
files and invalidation count but not in tracked documents or `allowJs`. -/
def sAlt : HostState :=
  { currentTextDocument := some docT, versions := [("/q.ts", 3)], docs := [],
    files := ["/w.ts"], allowJs := true, cleanCount := 7 }

/-- C9: module resolution is deterministic in the tracked-document map, the
(mutable) `allowJs` compiler setting and the environment (which carries the
on-disk state): two host states agreeing on `docs` and `allowJs` produce the
same resolution answers for the same specifiers and containing file — the
other state components (versions, root files, current document) are never
consulted. -/
theorem resolution_deterministic (env : Env) (s₁ s₂ : HostState)
    (names : List String) (cf : String)
    (hdocs : s₁.docs = s₂.docs) (hjs : s₁.allowJs = s₂.allowJs) :
    resolveModuleNames env s₁ names cf = resolveModuleNames env s₂ names cf := by
  have h1 : ∀ n, resolveModuleName1 env s₁ cf n =
      resolveModuleName1 env s₂ cf n := by
    intro n
    simp only [resolveModuleName1, hdocs, hjs]
  induction names with
  | nil => rfl
  | cons n t ih =>
      simp only [resolveModuleNames, List.map] at ih ⊢
      rw [h1 n, ih]

/-- Witness for `resolution_deterministic`: the empty initial state and
`sAlt` agree on `docs` and `allowJs` and resolve identically. -/
theorem resolution_deterministic_witness :
    resolveModuleNames envC3 (initialState [] true) ["./b.vue", "x"]
        "/a.vue" =
      resolveModuleNames envC3 sAlt ["./b.vue", "x"] "/a.vue" :=
  resolution_deterministic envC3 (initialState [] true) sAlt
    ["./b.vue", "x"] "/a.vue" (by decide) (by decide)

/-- C10: every feature query of `javascript.ts` first runs the update step
and then, when the document's file path is not among the program's root file
names, returns its empty or null result — independent of the Script Compiler
Service oracle, which is therefore never consulted for that document:
`doValidation`, `findDocumentHighlight`, `findDocumentSymbols`,
`findDefinition` and `findReferences` return `[]`, `doComplete` returns the
empty completion list, `doResolve` returns `NULL_COMPLETION`, `doHover`
returns empty hover contents and `doSignatureHelp` returns
`NULL_SIGNATURE`. -/
theorem feature_queries_guarded_by_root_files {δ ι κ σ η θ μ ρ : Type}
    (env : Env) (s : HostState) (doc : TextDocument) (item : κ)
    (d₁ : HostState → String → List δ)
    (d₂ : HostState → String → CompletionList ι)
    (d₃ : HostState → String → κ → κ)
    (d₄ : HostState → String → Hover η)
    (d₅ : HostState → String → SignatureHelp σ)
    (d₆ : HostState → String → List η)
    (d₇ : HostState → String → List θ)
    (d₈ : HostState → String → List μ)
    (d₉ : HostState → String → List ρ)
    (h : languageServiceIncludesFile env
      (updateCurrentTextDocument env s doc) doc.uri = false) :
    doValidation env d₁ s doc = ([], updateCurrentTextDocument env s doc) ∧
    doComplete env d₂ s doc =
      ({ isIncomplete := false, items := [] },
        updateCurrentTextDocument env s doc) ∧
    doResolve env d₃ s doc item =
      (ResolveResult.nullCompletion, updateCurrentTextDocument env s doc) ∧
    doHover env d₄ s doc =
      ({ contents := [] }, updateCurrentTextDocument env s doc) ∧
    doSignatureHelp env d₅ s doc =
      (NULL_SIGNATURE, updateCurrentTextDocument env s doc) ∧
    findDocumentHighlight env d₆ s doc =
      ([], updateCurrentTextDocument env s doc) ∧
    findDocumentSymbols env d₇ s doc =
      ([], updateCurrentTextDocument env s doc) ∧
    findDefinition env d₈ s doc =
      ([], updateCurrentTextDocument env s doc) ∧
    findReferences env d₉ s doc =
      ([], updateCurrentTextDocument env s doc) := by
  refine ⟨?_, ?_, ?_, ?_, ?_, ?_, ?_, ?_, ?_⟩ <;>
    simp [doValidation, doComplete, doResolve, doHover, doSignatureHelp,
      findDocumentHighlight, findDocumentSymbols, findDefinition,
      findReferences, h]

/-- Witness for `feature_queries_guarded_by_root_files`: validating `docT`
(path `/a.ts`, never a root file of the empty configuration) yields `[]`. -/
theorem feature_queries_guarded_by_root_files_witness :
    languageServiceIncludesFile envC
      (updateCurrentTextDocument envC (initialState [] true) docT)
      docT.uri = false ∧
    doValidation envC (fun _ _ => ([] : List Nat))
      (initialState [] true) docT =
      ([], updateCurrentTextDocument envC (initialState [] true) docT) :=
  ⟨by decide,
   (feature_queries_guarded_by_root_files envC (initialState [] true) docT
     (0 : Nat)
     (fun _ _ => ([] : List Nat))
     (fun _ _ => ({ isIncomplete := false, items := [] } :
       CompletionList Nat))
     (fun _ _ it => it)
     (fun _ _ => ({ contents := [] } : Hover Nat))
     (fun _ _ => (NULL_SIGNATURE : SignatureHelp Nat))
     (fun _ _ => ([] : List Nat))
     (fun _ _ => ([] : List Nat))
     (fun _ _ => ([] : List Nat))
     (fun _ _ => ([] : List Nat))
     (by decide)).1⟩

end Vetur
